import Mathlib

set_option maxHeartbeats 1000000

/-!
Shallow embedding of the colorpicker batch generator
(`src/modal_functions/colorpicker_batch.py`) of the `em-admin` repository,
together with theorems checking the natural-language specification against it.

Model ids, patterns and file-system paths are modelled as `List Char`
(Python `str`); 8-bit pixel channels as `Nat`/`Int` with explicit clamping
(NumPy `int32` intermediates fit in `Int` exactly); fallible external calls
(object store, task store) as `Except String`-valued oracles supplied as
arguments.
-/

/-- ASCII lowercase of one character (Python `str.lower` on the ASCII model
ids used by the repository). -/
def lowerChar (c : Char) : Char :=
  if 'A' ≤ c ∧ c ≤ 'Z' then Char.ofNat (c.toNat + 32) else c

/-- Python `str.lower` over a character list. -/
def lowerL (s : List Char) : List Char := s.map lowerChar

/-- ASCII uppercase of one character (Python `str.upper`). -/
def upperChar (c : Char) : Char :=
  if 'a' ≤ c ∧ c ≤ 'z' then Char.ofNat (c.toNat - 32) else c

/-- Python `str.upper` over a character list. -/
def upperL (s : List Char) : List Char := s.map upperChar

/-- Boolean test: `u` is a leading segment of `v`. -/
def isPre : List Char → List Char → Bool
  | [], _ => true
  | _ :: _, [] => false
  | a :: u, b :: v => a == b && isPre u v

/-- Python's substring test `q in s`. -/
def subOcc (q : List Char) : List Char → Bool
  | [] => isPre q []
  | c :: t => isPre q (c :: t) || subOcc q t

/-- Worker for `replaceAll`: scans the text left to right; the `Nat`
argument counts characters still to be skipped because they were consumed
by a replacement already emitted (Python `str.replace` continues scanning
after the replacement text). -/
def repAux (p0 : Char) (pt r : List Char) : List Char → Nat → List Char
  | [], _ => []
  | _ :: s, Nat.succ k => repAux p0 pt r s k
  | c :: s, 0 =>
    if isPre (p0 :: pt) (c :: s) then r ++ repAux p0 pt r s pt.length
    else c :: repAux p0 pt r s 0

/-- Python `s.replace(p, r)` for a non-empty literal pattern `p = p0 :: pt`:
replaces every non-overlapping occurrence, scanning left to right. -/
def replaceAll (p0 : Char) (pt r s : List Char) : List Char :=
  repAux p0 pt r s 0

-- ============================================================
-- Color and model registry (colorpicker_batch.py lines 31-96)
-- ============================================================

/-- The `COLORS` dict (lines 31-53), in source order. -/
def COLORS : List (String × Nat × Nat × Nat) := [
  ("navy_blue", 16, 43, 78),
  ("egyptian_blue", 35, 60, 136),
  ("royal_blue", 36, 98, 167),
  ("icy_blue", 117, 190, 233),
  ("shamrock_green", 0, 159, 72),
  ("jolly_green", 0, 114, 59),
  ("hunter_green", 14, 69, 42),
  ("silver_gray", 201, 199, 199),
  ("matte_black", 45, 42, 43),
  ("white", 255, 255, 255),
  ("indigo_purple", 94, 46, 134),
  ("power_purple", 104, 28, 91),
  ("merchant_maroon", 116, 17, 46),
  ("cardinal_red", 182, 31, 61),
  ("racing_red", 227, 50, 38),
  ("tiger_orange", 244, 121, 32),
  ("golden_yellow", 255, 212, 0),
  ("metallic_gold", 180, 151, 90),
  ("red", 236, 27, 36),
  ("amber", 249, 165, 25),
  ("none", 255, 255, 255)]

/-- `COLORS.get(color_name, (255, 255, 255))` (line 202 / 570). -/
def resolveColor (name : String) : Nat × Nat × Nat :=
  (List.lookup name COLORS).getD (255, 255, 255)

/-- `UI_COLORS` (line 55): color names other than none, red, amber. -/
def UI_COLORS : List String :=
  (COLORS.map Prod.fst).filter
    (fun c => decide (c ∉ (["none", "red", "amber"] : List String)))

/-- `LED_COLORS` (line 56). -/
def LED_COLORS : List String := ["red", "amber"]

/-- `ACCENT_COLORS` (line 57). -/
def ACCENT_COLORS : List String := UI_COLORS ++ ["none"]

/-- `MULTICOLOR_LEDS` (lines 60-64). The only wildcard entry is the
trailing-star pattern `lx2*`. -/
def MULTICOLOR_LEDS : List (List Char) := [
  "2180".toList, "2330".toList, "2350".toList, "2370".toList,
  "2550".toList, "2555".toList, "2556".toList,
  "2570".toList, "2575".toList, "2576".toList,
  "2655".toList, "2665".toList, "2770".toList,
  "8350".toList, "8650".toList, "8750".toList, "8850".toList,
  "lx2*".toList, "lx8440".toList]

/-- `FORCE_SINGLE_COLOR_LED` (line 65). -/
def FORCE_SINGLE_COLOR_LED : List (List Char) := ["lx2120".toList]

/-- `'*' in pattern` (line 79). -/
def hasStar (pat : List Char) : Bool := pat.contains '*'

/-- The regex atom `.` matches the character at the head of `s` (anything
except a newline); used to model `.+`, which needs at least one such
character. -/
def dotPlusAt (s : List Char) : Bool :=
  match s with
  | [] => false
  | c :: _ => c != '\n'

/-- `re.search` of the regex `p.+` (literal characters `p` followed by one
or more non-newline characters) in a text, anchored nowhere: tries every
start position. This models `re.search(pattern.replace('*', '.+'), ...)`
for the trailing-star pattern of the table (line 80-81), with both sides
already lowercased to model `re.IGNORECASE`. -/
def searchPatDotPlus (p : List Char) : List Char → Bool
  | [] => false
  | c :: t =>
    (isPre p (c :: t) && dotPlusAt ((c :: t).drop p.length)) ||
      searchPatDotPlus p t

/-- `is_multicolor_led` (lines 68-87). Note: the override tokens are
matched case-insensitively against `model_id.lower()`, the wildcard
pattern is matched with `re.IGNORECASE`, but a literal pattern is
matched by `pattern in model_id` against the raw, unlowered id. -/
def is_multicolor_led (model_id : List Char) : Bool :=
  let model_lower := lowerL model_id
  if FORCE_SINGLE_COLOR_LED.any (fun single => subOcc (lowerL single) model_lower) then
    false
  else
    MULTICOLOR_LEDS.any (fun pat =>
      if hasStar pat then
        searchPatDotPlus (lowerL pat.dropLast) (lowerL model_id)
      else
        subOcc pat model_id)

/-- The claim's reading of `is_multicolor_led`, in which a literal pattern
matches as a case-insensitive substring; kept only to exhibit where it
diverges from the source function. -/
def is_multicolor_led_claimed (model_id : List Char) : Bool :=
  let model_lower := lowerL model_id
  if FORCE_SINGLE_COLOR_LED.any (fun single => subOcc (lowerL single) model_lower) then
    false
  else
    MULTICOLOR_LEDS.any (fun pat =>
      if hasStar pat then
        searchPatDotPlus (lowerL pat.dropLast) (lowerL model_id)
      else
        subOcc (lowerL pat) model_lower)

/-- A model id contains some override token of `FORCE_SINGLE_COLOR_LED`
as a case-insensitive substring. -/
def overrideHitProp (m : List Char) : Prop :=
  ∃ t ∈ FORCE_SINGLE_COLOR_LED, ∃ x y, lowerL m = x ++ lowerL t ++ y

/-- A pattern of the multicolor table matches a model id, stated
declaratively: a trailing-star pattern matches when the lowered id
contains the lowered stem followed by at least one further (non-newline)
character; a literal pattern matches as a case-sensitive substring of
the raw id. -/
def patMatchProp (pat m : List Char) : Prop :=
  if hasStar pat then
    ∃ x c y, lowerL m = x ++ lowerL pat.dropLast ++ c :: y ∧ c ≠ '\n'
  else
    ∃ x y, m = x ++ pat ++ y

/-- `normalize_model_name` (lines 90-96) on character lists: the four
ordered literal `str.replace` rules. -/
def normalizeL (s : List Char) : List Char :=
  replaceAll 'l' "x2545b".toList "lx2545v".toList
    (replaceAll 'l' "x2655b".toList "lx2655v".toList
      (replaceAll 'l' "x2665b".toList "lx2665v".toList
        (replaceAll '-' "fourface".toList "-4".toList s)))

/-- `normalize_model_name` (lines 90-96). -/
def normalize_model_name (s : String) : String :=
  String.mk (normalizeL s.data)

-- ============================================================
-- Task population (populate_tasks, lines 729-821)
-- ============================================================

/-- The identity tuple of a render task, as used by `populate_tasks` for
deduplication: `(model, primary_color, accent_color, led_color)`
(lines 761-769, 783). -/
structure TaskIdent where
  model : String
  primary : String
  accent : String
  led : String
deriving DecidableEq

/-- The cross product `models × UI_COLORS × ACCENT_COLORS × LED_COLORS`
generated by the nested loops of `populate_tasks` (lines 778-792), in
loop order. -/
def comboList (models : List String) : List TaskIdent :=
  models.flatMap fun m =>
    UI_COLORS.flatMap fun p =>
      ACCENT_COLORS.flatMap fun a =>
        LED_COLORS.map fun l => ⟨m, p, a, l⟩

/-- The identities `populate_tasks` inserts: combinations whose identity
tuple is not already in the store (`if combo not in existing`, line 784). -/
def new_tasks (existing : List TaskIdent) (models : List String) : List TaskIdent :=
  (comboList models).filter (fun c => decide (c ∉ existing))

/-- The task store contents after one `populate_tasks` run over `models`:
the previous rows plus the newly inserted ones. -/
def populate_step (existing : List TaskIdent) (models : List String) : List TaskIdent :=
  existing ++ new_tasks existing models

-- ============================================================
-- Task lifecycle (populate_tasks reset, run_batch_processing fetch)
-- ============================================================

/-- Task `status` values of the `colorpicker_tasks` table. -/
inductive TaskStatus
  | pending
  | processing
  | completed
  | failed
deriving DecidableEq

/-- The mutable per-task state the retry logic operates on. -/
structure TaskRow where
  status : TaskStatus
  attempts : Nat
deriving DecidableEq

/-- The reset-failed update of `populate_tasks` (lines 746-751):
`status='failed'` rows with `attempts < 3` go back to `pending`. -/
def reset_failed_step (t : TaskRow) : TaskRow :=
  if t.status = .failed ∧ t.attempts < 3 then { t with status := .pending } else t

/-- The dispatch loop's pending fetch filter (lines 899-901):
`status = 'pending'` and `attempts < 3`. -/
def pending_fetch_eligible (t : TaskRow) : Bool :=
  t.status == .pending && decide (t.attempts < 3)

/-- Outcome of a worker processing a fetched task. -/
inductive WorkerOutcome
  | completes
  | fails

/-- One operation the system performs on a task row: either the
population step's reset-failed update, or being considered by the
dispatch loop (which processes the task only if the pending fetch
selects it; processing increments `attempts`, line 335, and ends in
`completed` or `failed`). -/
inductive QueueOp
  | reset
  | dispatch (o : WorkerOutcome)

/-- Effect of a dispatch round on one task row. -/
def dispatch_step (o : WorkerOutcome) (t : TaskRow) : TaskRow :=
  if pending_fetch_eligible t then
    match o with
    | .completes => { status := .completed, attempts := t.attempts + 1 }
    | .fails => { status := .failed, attempts := t.attempts + 1 }
  else t

/-- Apply one queue operation to a task row. -/
def apply_op : QueueOp → TaskRow → TaskRow
  | .reset, t => reset_failed_step t
  | .dispatch o, t => dispatch_step o t

/-- Apply a sequence of queue operations, oldest first. -/
def apply_ops (ops : List QueueOp) (t : TaskRow) : TaskRow :=
  ops.foldl (fun t o => apply_op o t) t

-- ============================================================
-- Pixel-level colorize transform (colorize_image, lines 188-238,
-- and the identical closure `colorize`, lines 568-593)
-- ============================================================

/-- A 4-channel pixel (mode RGBA). -/
structure RGBA where
  r : Nat
  g : Nat
  b : Nat
  a : Nat
deriving DecidableEq

/-- One pixel of Pillow's RGBA→L conversion (`ImageOps.grayscale`,
line 212): ITU-R 601-2 weights computed as
`(19595 R + 38470 G + 7471 B) >> 16`, alpha ignored. -/
def rgb2l (px : RGBA) : Nat :=
  (px.r * 19595 + px.g * 38470 + px.b * 7471) / 65536

/-- `ImageOps.grayscale(img)`: per-pixel luminance. -/
def grayscaleImg (img : List RGBA) : List Nat := img.map rgb2l

/-- The mean luminance Pillow's `ImageEnhance.Contrast` precomputes:
`int(ImageStat.Stat(gray).mean[0] + 0.5)`, i.e. the mean rounded to the
nearest integer (computed exactly here; 0 for an empty image). -/
def imageMeanRounded (g : List Nat) : Nat :=
  (2 * g.sum + g.length) / (2 * g.length)

/-- The clipping cast of Pillow's `Image.blend` extrapolation branch:
values at most 0 become 0, at least 255 become 255. -/
def clipToByte (x : Int) : Int :=
  if x ≤ 0 then 0 else if 255 ≤ x then 255 else x

/-- One pixel of `Image.blend(degenerate, image, factor)` for factor
outside [0,1]: `clip(in1 + factor * (in2 - in1))`, exact on integers. -/
def blendPixel (factor a b : Int) : Int :=
  clipToByte (a + factor * (b - a))

/-- `ImageEnhance.Contrast(gray).enhance(2.0)` (lines 215-216 / 576-577):
blend of the constant mean-luminance image with the image, factor 2. -/
def contrast2 (g : List Nat) : List Nat :=
  (List.zipWith (blendPixel 2) (List.replicate g.length (imageMeanRounded g : Int))
    (g.map Int.ofNat)).map Int.toNat

/-- `ImageOps.invert` (line 220 / 580): tonal inversion `255 - p`. -/
def invertImg (g : List Nat) : List Nat := g.map (fun p => 255 - p)

/-- The single-channel image after steps 2-4 of the colorize transform
(grayscale, contrast 2.0, optional negate). -/
def contrastedGray (img : List RGBA) (negate : Bool) : List Nat :=
  let c := contrast2 (grayscaleImg img)
  if negate then invertImg c else c

/-- One output channel of the additive color injection
(`np.clip(gray_arr + k, 0, 255)` on `int32`, lines 231-233 / 587-589). -/
def inject (p k : Int) : Int := min (max (p + k) 0) 255

/-- `colorize_image` (lines 188-238) on the pixel model: grayscale,
contrast 2.0, optional negate, additive color injection per channel,
original alpha reattached (`putalpha`, line 236). Works on the
already-RGBA-converted pixel list. -/
def colorize_image (img : List RGBA) (color_name : String) (negate : Bool) : List RGBA :=
  let rgb := resolveColor color_name
  let alpha := img.map RGBA.a
  let gray := contrastedGray img negate
  (gray.zip alpha).map fun pa =>
    ⟨(inject pa.1 rgb.1).toNat, (inject pa.1 rgb.2.1).toNat,
     (inject pa.1 rgb.2.2).toNat, pa.2⟩

/-- The nested `colorize` closure of `generate_single_image`
(lines 568-593), whose body is character-for-character the body of
`ImageGenerator.colorize_image`. -/
def colorize_single (img : List RGBA) (color_name : String) (negate : Bool) : List RGBA :=
  let rgb := resolveColor color_name
  let alpha := img.map RGBA.a
  let gray := contrastedGray img negate
  (gray.zip alpha).map fun pa =>
    ⟨(inject pa.1 rgb.1).toNat, (inject pa.1 rgb.2.1).toNat,
     (inject pa.1 rgb.2.2).toNat, pa.2⟩

/-- The RGB part of a pixel. -/
def rgbOf (px : RGBA) : Nat × Nat × Nat := (px.r, px.g, px.b)

/-- Overwrite a pixel's alpha. -/
def setAlpha (a0 : Nat) (px : RGBA) : RGBA := { px with a := a0 }

-- ============================================================
-- The two render pipelines (generate_image, lines 240-311, and the
-- inline render chain of generate_single_image, lines 550-658)
-- ============================================================

/-- The image operations both pipelines delegate to Pillow for; the type
of decoded images is abstract because geometry-dependent operations
(LANCZOS resampling, PNG encoding) are external to the repository. Both
source pipelines call the same library functions, so a single record
serves both; in particular `colorizeOp` stands for the two
character-identical colorize definitions (see `colorize_defs_agree`). -/
structure RenderOps (Img : Type) where
  /-- `os.path.exists` + `Image.open` on a cache path, `none` when the
  file is absent or opening raised (both sources skip to the next path
  on an exception). -/
  openAt : List Char → Option Img
  /-- `.convert('RGBA')`. -/
  convertRGBA : Img → Img
  /-- the colorize transform, keyed by color name and negate flag. -/
  colorizeOp : Img → List Char → Bool → Img
  /-- `.size` as (width, height). -/
  imgSize : Img → Nat × Nat
  /-- `Image.new('RGBA', size, (0, 0, 0, 0))`. -/
  blank : Nat × Nat → Img
  /-- `.resize(size, Image.LANCZOS)`. -/
  resizeTo : Img → Nat × Nat → Img
  /-- `Image.alpha_composite`. -/
  alphaComposite : Img → Img → Img
  /-- the final aspect-preserving resize block to a target width
  (ratio computation plus `.resize`, lines 303-306 / 650-653). -/
  scaleToWidth : Img → Nat → Img
  /-- `.save(buffer, format='PNG', optimize=True)` to bytes. -/
  encodePNG : Img → List Nat

/-- First successfully opened path of a candidate list (the
`for path in paths` loop of both `get_mask` variants). -/
def firstFound {Img : Type} (f : List Char → Option Img) : List (List Char) → Option Img
  | [] => none
  | p :: ps =>
    match f p with
    | some i => some i
    | none => firstFound f ps

/-- `f"/cache/masks/{m}/{layer}.png"`. -/
def maskPath (m layer : List Char) : List Char :=
  "/cache/masks/".toList ++ m ++ ('/' :: layer) ++ ".png".toList

/-- `ImageGenerator.get_mask` (lines 166-186): normalizes its argument
again and tries normalized, lowercase, uppercase, then the raw argument. -/
def get_mask {Img : Type} (ops : RenderOps Img) (model layer : List Char) : Option Img :=
  let mn := normalizeL model
  firstFound ops.openAt
    [maskPath mn layer, maskPath (lowerL mn) layer, maskPath (upperL mn) layer,
     maskPath model layer]

/-- The nested `get_mask` of `generate_single_image` (lines 554-566):
tries its argument, lowercase, uppercase — no renormalization and no
raw-model fallback. -/
def get_mask_ondemand {Img : Type} (ops : RenderOps Img) (m layer : List Char) :
    Option Img :=
  firstFound ops.openAt
    [maskPath m layer, maskPath (lowerL m) layer, maskPath (upperL m) layer]

/-- A present mask contributes one (name, image) layer, an absent one
nothing (batch pipeline keeps `(name, layer)` pairs, lines 256-290). -/
def optNamed {Img : Type} (name : List Char) (o : Option Img) (f : Img → Img) :
    List (List Char × Img) :=
  match o with
  | some i => [(name, f i)]
  | none => []

/-- A present mask contributes one image layer (on-demand pipeline keeps
bare images, lines 595-630). -/
def optPlain {Img : Type} (o : Option Img) (f : Img → Img) : List Img :=
  match o with
  | some i => [f i]
  | none => []

/-- The compositing fold body (lines 296-300 / 643-647): resample a
mismatched-size layer to the canvas size, then alpha-composite. -/
def compositeOnto {Img : Type} (ops : RenderOps Img) (acc layer : Img) : Img :=
  let layer' := if ops.imgSize layer ≠ ops.imgSize acc
    then ops.resizeTo layer (ops.imgSize acc) else layer
  ops.alphaComposite acc layer'

/-- The tail of `generate_image` (lines 292-311): composite the named
layer stack onto a transparent canvas sized to the first layer, resize
to the requested width when truthy and different (`if width and width !=
result.width`), encode as PNG; `none` when every layer is absent. -/
def composite_encode_batch {Img : Type} (ops : RenderOps Img)
    (layers : List (List Char × Img)) (width : Nat) : Option (List Nat) :=
  match layers with
  | [] => none
  | l0 :: _ =>
    let result := layers.foldl (fun acc nl => compositeOnto ops acc nl.2)
      (ops.blank (ops.imgSize l0.2))
    let result := if width ≠ 0 ∧ width ≠ (ops.imgSize result).1
      then ops.scaleToWidth result width else result
    some (ops.encodePNG result)

/-- The tail of the on-demand render chain (lines 632-658): identical,
over an unnamed layer list. -/
def composite_encode_single {Img : Type} (ops : RenderOps Img)
    (layers : List Img) (width : Nat) : Option (List Nat) :=
  match layers with
  | [] => none
  | l0 :: _ =>
    let result := layers.foldl (compositeOnto ops) (ops.blank (ops.imgSize l0))
    let result := if width ≠ 0 ∧ width ≠ (ops.imgSize result).1
      then ops.scaleToWidth result width else result
    some (ops.encodePNG result)

/-- `ImageGenerator.generate_image` (lines 240-311): build the six-layer
stack, composite onto a transparent canvas sized to the first layer,
resize to the requested width when it differs (`if width and width !=
result.width`), encode as PNG; `none` when every layer is absent. -/
def generate_image {Img : Type} (ops : RenderOps Img)
    (model primary accent leds : List Char) (width : Nat) : Option (List Nat) :=
  let mn := normalizeL model
  let accent_color := if accent = "none".toList ∨ accent = "n/a".toList then primary else accent
  let layers : List (List Char × Img) :=
    optNamed "Frame".toList (get_mask ops mn "Frame".toList) ops.convertRGBA ++
    optNamed "Face".toList (get_mask ops mn "Face".toList)
      (fun i => ops.colorizeOp i primary true) ++
    optNamed "Accent-Striping".toList (get_mask ops mn "Accent-Striping".toList)
      (fun i => ops.colorizeOp i accent_color true) ++
    optNamed "Masks".toList (get_mask ops mn "Masks".toList) ops.convertRGBA ++
    optNamed "LED-Glow".toList (get_mask ops mn "LED-Glow".toList)
      (fun i => if is_multicolor_led model then ops.convertRGBA i
                else ops.colorizeOp i leds true) ++
    optNamed "Captions".toList (get_mask ops mn "Captions".toList)
      (fun i => ops.colorizeOp i "white".toList true)
  composite_encode_batch ops layers width

/-- The render chain of `generate_single_image` (lines 550-658): same
stack and policies, but via the nested `get_mask` (already-normalized
model, three candidate paths) and an unnamed layer list. -/
def render_single {Img : Type} (ops : RenderOps Img)
    (model primary accent leds : List Char) (width : Nat) : Option (List Nat) :=
  let mn := normalizeL model
  let accent_color := if accent = "none".toList ∨ accent = "n/a".toList then primary else accent
  let layers : List Img :=
    optPlain (get_mask_ondemand ops mn "Frame".toList) ops.convertRGBA ++
    optPlain (get_mask_ondemand ops mn "Face".toList)
      (fun i => ops.colorizeOp i primary true) ++
    optPlain (get_mask_ondemand ops mn "Accent-Striping".toList)
      (fun i => ops.colorizeOp i accent_color true) ++
    optPlain (get_mask_ondemand ops mn "Masks".toList) ops.convertRGBA ++
    optPlain (get_mask_ondemand ops mn "LED-Glow".toList)
      (fun i => if is_multicolor_led model then ops.convertRGBA i
                else ops.colorizeOp i leds true) ++
    optPlain (get_mask_ondemand ops mn "Captions".toList)
      (fun i => ops.colorizeOp i "white".toList true)
  composite_encode_single ops layers width

-- ============================================================
-- HTTP entry points (generate_single_image, lines 414-692, and
-- start_batch_processing, lines 824-850)
-- ============================================================

/-- External effects of one `generate_single_image` request. Progress
writes are omitted: every one of them is wrapped in its own
try/except and swallowed (lines 472-473, 485-486, 505-506, 679-680). -/
structure SingleEndpointEnv (Img : Type) where
  ops : RenderOps Img
  /-- whether `s3.head_object` on the output key succeeds (the call is
  inside `try/except`, so a failure only means "generate it"). -/
  headExists : Bool
  /-- the mask sync block (lines 529-548): the `list_objects_v2`
  pagination is not inside any try/except, so an error escapes. -/
  syncMasks : Except String Unit
  /-- `s3.put_object` of the rendered bytes (lines 662-668): not inside
  any try/except. -/
  putObject : Except String Unit

/-- Request body of the single-image endpoint. -/
structure SingleRequest where
  model : Option String
  primary : String
  accent : String
  leds : String
  width : Nat

/-- The structured JSON payload the single-image endpoint returns. -/
structure SingleResponse where
  success : Bool
  existsAlready : Bool
  url : Option String
  error : Option String
deriving DecidableEq

/-- `generate_single_image` (lines 426-692) as a function of its request
and its effect oracle. A `.error` value is a raw exception escaping the
handler; `.ok` is a structured payload. -/
def generate_single_image_ep {Img : Type} (env : SingleEndpointEnv Img)
    (item : SingleRequest) : Except String SingleResponse :=
  match item.model with
  | none => .ok ⟨false, false, none, some "Model is required"⟩
  | some model =>
    let s3_key := "colorpicker-generated/" ++ model ++ "/" ++ item.primary ++ "-" ++
      item.accent ++ "-" ++ item.leds ++ ".png"
    let result_url := "https://em-admin-assets.s3.us-east-1.amazonaws.com/" ++ s3_key
    if env.headExists then
      .ok ⟨true, true, some result_url, none⟩
    else
      match env.syncMasks with
      | .error e => .error e
      | .ok _ =>
        match render_single env.ops model.data item.primary.data item.accent.data
            item.leds.data item.width with
        | none => .ok ⟨false, false, none, some ("No layers found for model " ++ model)⟩
        | some _ =>
          match env.putObject with
          | .error e => .error e
          | .ok _ => .ok ⟨true, false, some result_url, none⟩

/-- Request body of the batch-start endpoint. -/
structure BatchStartRequest where
  batch_size : Nat
  max_parallel : Nat
  max_tasks : Option Nat

/-- Response of the batch-start endpoint. -/
structure BatchStartResponse where
  success : Bool
  message : String
  max_tasks : Option Nat

/-- `start_batch_processing` (lines 830-850): spawns the orchestrator in
the background and returns a structured acknowledgement. -/
def start_batch_processing_ep (item : BatchStartRequest) : BatchStartResponse :=
  ⟨true,
   "Batch processing started with batch_size=" ++ toString item.batch_size ++
     ", max_parallel=" ++ toString item.max_parallel,
   item.max_tasks⟩

/-- Trivial image operations for closed instantiations of the abstract
pipelines (every path opens to the unit image). -/
def unitOps : RenderOps Unit :=
  ⟨fun _ => some (), fun _ => (), fun i _ _ => i, fun _ => (720, 480), fun _ => (),
   fun i _ => i, fun _ _ => (), fun i _ => i, fun _ => [137, 80, 78, 71]⟩

/-- A concrete request/effect scenario in which the upload fails. -/
def failingUploadEnv : SingleEndpointEnv Unit :=
  ⟨unitOps, false, .ok (), .error "S3 put_object failed"⟩

/-- The same scenario with a healthy store. -/
def healthyEnv : SingleEndpointEnv Unit :=
  ⟨unitOps, false, .ok (), .ok ()⟩

/-- A fixed single-image request. -/
def sampleRequest : SingleRequest :=
  ⟨some "lx1234", "navy_blue", "none", "amber", 720⟩

/-- Structured-payload test for an endpoint result. -/
def returnsPayload {Img : Type} : Except String Img → Bool
  | .ok _ => true
  | .error _ => false

-- ============================================================
-- Task status writes and the batch worker
-- (update_task_status, lines 313-348; process_batch, lines 350-407)
-- ============================================================

/-- Statuses written by `update_task_status`. -/
inductive WriteStatus
  | processing
  | completed
  | failed
deriving DecidableEq

/-- The row update `update_task_status` sends to the task store. -/
structure UpdateData where
  status : WriteStatus
  attempts : Option Nat
  s3_key : Option String
  file_size_bytes : Option Nat
  error_message : Option (Option String)
deriving DecidableEq

/-- Task-store calls made inside `update_task_status`: the attempts
select (line 324) and the row update (line 346), each of which can
raise. -/
structure StatusWriteEnv where
  selectAttempts : Except String Nat
  updateRow : UpdateData → Except String Unit

/-- The body of `update_task_status`'s `try` block. -/
def update_task_status_inner (env : StatusWriteEnv) (status : WriteStatus)
    (s3_key : Option String) (file_size : Option Nat) (error : Option String) :
    Except String Unit := do
  let current_attempts ← env.selectAttempts
  let d : UpdateData := {
    status := status,
    attempts := if status = .processing then some (current_attempts + 1) else none,
    s3_key := if status = .completed then s3_key else none,
    file_size_bytes := if status = .completed then file_size else none,
    error_message :=
      if status = .completed then some none
      else if status = .failed then some (some ((error.getD "Unknown error").take 1000))
      else none }
  env.updateRow d

/-- `ImageGenerator.update_task_status` (lines 313-348): the whole body
is inside `try/except Exception`, which prints and swallows any
task-store error. -/
def update_task_status (env : StatusWriteEnv) (status : WriteStatus)
    (s3_key : Option String) (file_size : Option Nat) (error : Option String) :
    Except String Unit :=
  match update_task_status_inner env status s3_key file_size error with
  | .ok u => .ok u
  | .error _ => .ok ()

/-- One task of a `process_batch` call together with the behavior of the
external calls made while processing it. -/
structure WorkerTask where
  model : String
  primary : String
  accent : String
  led : String
  /-- store env for the `processing` status write. -/
  procWrite : StatusWriteEnv
  /-- result of `generate_image`: an exception, `none` (no layers), or
  the PNG bytes. -/
  genResult : Except String (Option (List Nat))
  /-- result of `s3.put_object` for the rendered bytes. -/
  putResult : Except String Unit
  /-- store env for the terminal (`completed` or `failed`) status write. -/
  doneWrite : StatusWriteEnv

/-- The `results` dict accumulated by `process_batch`. -/
structure BatchResults where
  success : Nat
  failed : Nat
  skipped : Nat
  errors : List String
deriving DecidableEq

/-- The `process_batch` loop body for one task (lines 358-405): mark
processing, generate, handle falsy bytes, upload, mark completed; any
exception inside the per-task `try` lands in the per-task `except`,
which marks the task failed and moves on. -/
def process_one (acc : BatchResults) (t : WorkerTask) : BatchResults :=
  let _ := update_task_status t.procWrite .processing none none none
  match t.genResult with
  | .error e =>
    let _ := update_task_status t.doneWrite .failed none none (some e)
    { acc with failed := acc.failed + 1,
               errors := acc.errors ++ [t.model ++ ": " ++ e.take 100] }
  | .ok none =>
    let _ := update_task_status t.doneWrite .failed none none (some "No layers found for model")
    { acc with failed := acc.failed + 1, errors := acc.errors ++ [t.model ++ ": No layers"] }
  | .ok (some bytes) =>
    if bytes = [] then
      let _ := update_task_status t.doneWrite .failed none none (some "No layers found for model")
      { acc with failed := acc.failed + 1, errors := acc.errors ++ [t.model ++ ": No layers"] }
    else
      let s3_key := "colorpicker-generated/" ++ t.model ++ "/" ++ t.primary ++ "-" ++
        t.accent ++ "-" ++ t.led ++ ".png"
      match t.putResult with
      | .error e =>
        let _ := update_task_status t.doneWrite .failed none none (some e)
        { acc with failed := acc.failed + 1,
                   errors := acc.errors ++ [t.model ++ ": " ++ e.take 100] }
      | .ok _ =>
        let _ := update_task_status t.doneWrite .completed (some s3_key) (some bytes.length) none
        { acc with success := acc.success + 1 }

/-- `ImageGenerator.process_batch` (lines 350-407). -/
def process_batch (tasks : List WorkerTask) : BatchResults :=
  tasks.foldl process_one ⟨0, 0, 0, []⟩

/-- A task is tallied as a success exactly when rendering produced
non-empty bytes and the upload went through; the terminal status write
plays no part. -/
def uploadedOk (t : WorkerTask) : Bool :=
  (match t.genResult with
   | .ok (some bytes) => decide (bytes ≠ [])
   | _ => false) &&
  (match t.putResult with
   | .ok _ => true
   | .error _ => false)

-- ============================================================
-- Helper lemmas
-- ============================================================

/-- zipWith against a replicated constant is a map. -/
theorem zipWith_replicate_left (f : Int → Int → Int) :
    ∀ (g : List Nat) (m : Int),
      List.zipWith f (List.replicate g.length m) (g.map Int.ofNat) =
        g.map fun p => f m (Int.ofNat p) := by
  intro g m
  induction g with
  | nil => rfl
  | cons p g ih => simp [List.replicate, ih]

/-- Mapping a function of the first component over a zip of equal-length
lists is a map over the first list. -/
theorem zip_map_left {α β γ : Type} (F : α → γ) :
    ∀ (as : List α) (bs : List β), as.length = bs.length →
      ((as.zip bs).map fun p => F p.1) = as.map F := by
  intro as
  induction as with
  | nil => intro bs _; rfl
  | cons a as ih =>
    intro bs h
    cases bs with
    | nil => simp at h
    | cons b bs => simp only [List.zip_cons_cons, List.map_cons]; rw [ih bs (by simpa using h)]

/-- Mapping a function of the second component over a zip of equal-length
lists is a map over the second list. -/
theorem zip_map_right {α β γ : Type} (F : β → γ) :
    ∀ (as : List α) (bs : List β), as.length = bs.length →
      ((as.zip bs).map fun p => F p.2) = bs.map F := by
  intro as
  induction as with
  | nil => intro bs h; cases bs; · rfl
           · simp at h
  | cons a as ih =>
    intro bs h
    cases bs with
    | nil => simp at h
    | cons b bs => simp only [List.zip_cons_cons, List.map_cons]; rw [ih bs (by simpa using h)]

/-- Mapping the second projection over a zip of equal-length lists gives
back the second list. -/
theorem zip_snd {α β : Type} :
    ∀ (as : List α) (bs : List β), as.length = bs.length →
      (as.zip bs).map Prod.snd = bs := by
  intro as
  induction as with
  | nil =>
    intro bs h
    cases bs with
    | nil => rfl
    | cons b bs => simp at h
  | cons a as ih =>
    intro bs h
    cases bs with
    | nil => simp at h
    | cons b bs =>
      simp only [List.zip_cons_cons, List.map_cons]
      rw [ih bs (by simpa using h)]

/-- The Pillow blend clip is the clamp to [0, 255]. -/
theorem clipToByte_eq (x : Int) : clipToByte x = max 0 (min 255 x) := by
  unfold clipToByte
  split_ifs <;> omega

/-- Length of the contrast-enhanced image. -/
theorem contrast2_length (g : List Nat) : (contrast2 g).length = g.length := by
  simp [contrast2]

/-- Length of the post-steps-2-4 single-channel image. -/
theorem contrastedGray_length (img : List RGBA) (negate : Bool) :
    (contrastedGray img negate).length = img.length := by
  cases negate <;> simp [contrastedGray, invertImg, contrast2_length, grayscaleImg]

/-- The red channel of the colorize transform is exactly the additive
injection of the post-grayscale/contrast/invert luminance (and likewise
for green and blue with the other components). -/
theorem colorize_image_red_law (img : List RGBA) (col : String) (neg : Bool) :
    (colorize_image img col neg).map RGBA.r =
      (contrastedGray img neg).map
        (fun p => min 255 (p + (resolveColor col).1)) := by
  simp only [colorize_image]
  rw [List.map_map]
  have hlen : (contrastedGray img neg).length = (img.map RGBA.a).length := by
    simp [contrastedGray_length]
  refine Eq.trans (b := (contrastedGray img neg).map
    (fun p : Nat => (inject (p : Int) ((resolveColor col).1 : Int)).toNat)) ?_ ?_
  · exact zip_map_left
      (fun p : Nat => (inject (p : Int) ((resolveColor col).1 : Int)).toNat) _ _ hlen
  · apply List.map_congr_left
    intro p _
    simp only [inject]
    omega

-- ============================================================
-- C1: additive clamp law of the color-injection step
-- ============================================================

/-- C1: for every post-grayscale/contrast/invert luminance `p ∈ [0,255]`
and every target channel value `k ∈ [0,255]`, the injected output channel
(`np.clip(gray_arr + k, 0, 255)` on exact `int32` arithmetic) equals
`min 255 (p + k)`, and the intermediate sum is never negative. -/
theorem colorize_additive_clamp (p k : Int)
    (hp0 : 0 ≤ p) (hp1 : p ≤ 255) (hk0 : 0 ≤ k) (hk1 : k ≤ 255) :
    inject p k = min 255 (p + k) ∧ 0 ≤ p + k := by
  unfold inject
  omega

/-- Witness for C1 at p = 200, k = 100. -/
theorem colorize_additive_clamp_witness :
    (0 : Int) ≤ 200 ∧ (200 : Int) ≤ 255 ∧ (0 : Int) ≤ 100 ∧ (100 : Int) ≤ 255 ∧
      (inject 200 100 = min 255 (200 + 100) ∧ (0 : Int) ≤ 200 + 100) :=
  ⟨by decide, by decide, by decide, by decide,
   colorize_additive_clamp 200 100 (by decide) (by decide) (by decide) (by decide)⟩

-- ============================================================
-- C2: the contrast step
-- ============================================================

/-- C2: the contrast step (Pillow `ImageEnhance.Contrast(...).enhance(2.0)`,
i.e. `Image.blend` of the constant mean image with the image at factor 2)
maps each grayscale pixel `p` to `clamp(0, 255, mean + (p - mean) * 2)`,
where `mean` is the mean luminance of that image itself, rounded to the
nearest integer as Pillow does. -/
theorem contrast_step_law (g : List Nat) :
    contrast2 g = g.map fun p : Nat =>
      (max 0 (min 255 ((imageMeanRounded g : Int) +
        (((p : Nat) : Int) - (imageMeanRounded g : Int)) * 2))).toNat := by
  unfold contrast2
  rw [zipWith_replicate_left, List.map_map]
  apply List.map_congr_left
  intro p _
  show (blendPixel 2 (imageMeanRounded g : Int) (Int.ofNat p)).toNat = _
  rw [blendPixel, clipToByte_eq]
  have hc : Int.ofNat p = (p : Int) := rfl
  rw [hc]
  omega

-- ============================================================
-- C3: alpha preservation, transparent pixels not special-cased
-- ============================================================

/-- C3: the colorize transform's output alpha channel equals the input
alpha channel exactly; and the output RGB data does not depend on alpha
at all (in particular fully-transparent pixels still receive colorized
RGB values). -/
theorem colorize_alpha_preserved (img : List RGBA) (col : String) (neg : Bool) :
    ((colorize_image img col neg).map RGBA.a = img.map RGBA.a) ∧
      ∀ a0, (colorize_image (img.map (setAlpha a0)) col neg).map rgbOf =
        (colorize_image img col neg).map rgbOf := by
  constructor
  · simp only [colorize_image]
    rw [List.map_map]
    have hlen : (contrastedGray img neg).length = (img.map RGBA.a).length := by
      simp [contrastedGray_length]
    exact zip_snd (contrastedGray img neg) (img.map RGBA.a) hlen
  · intro a0
    have hgray : contrastedGray (img.map (setAlpha a0)) neg = contrastedGray img neg := by
      unfold contrastedGray grayscaleImg
      rw [List.map_map]
      rfl
    simp only [colorize_image, List.map_map]
    rw [hgray]
    have h1 : (contrastedGray img neg).length =
        (img.map (RGBA.a ∘ setAlpha a0)).length := by
      simp [contrastedGray_length]
    have h2 : (contrastedGray img neg).length = (img.map RGBA.a).length := by
      simp [contrastedGray_length]
    refine Eq.trans (b := (contrastedGray img neg).map
      (fun p : Nat => ((inject (p : Int) ((resolveColor col).1 : Int)).toNat,
        (inject (p : Int) ((resolveColor col).2.1 : Int)).toNat,
        (inject (p : Int) ((resolveColor col).2.2 : Int)).toNat))) ?_ ?_
    · exact zip_map_left
        (fun p : Nat => ((inject (p : Int) ((resolveColor col).1 : Int)).toNat,
          (inject (p : Int) ((resolveColor col).2.1 : Int)).toNat,
          (inject (p : Int) ((resolveColor col).2.2 : Int)).toNat)) _ _ h1
    · exact (zip_map_left
        (fun p : Nat => ((inject (p : Int) ((resolveColor col).1 : Int)).toNat,
          (inject (p : Int) ((resolveColor col).2.1 : Int)).toNat,
          (inject (p : Int) ((resolveColor col).2.2 : Int)).toNat)) _ _ h2).symm

-- ============================================================
-- C5: population is idempotent and never duplicates an identity
-- ============================================================

/-- C5: the population step inserts only identity tuples absent from the
task store, and running it a second time over the same models (and the
fixed color sets) inserts nothing. -/
theorem populate_idempotent (existing : List TaskIdent) (models : List String) :
    ((new_tasks existing models).all (fun c => decide (c ∉ existing)) = true) ∧
      new_tasks (populate_step existing models) models = [] := by
  constructor
  · rw [List.all_eq_true]
    intro c hc
    exact (List.mem_filter.mp hc).2
  · unfold new_tasks
    rw [List.filter_eq_nil_iff]
    intro c hc
    simp only [decide_eq_true_eq, Decidable.not_not]
    unfold populate_step
    by_cases h : c ∈ existing
    · exact List.mem_append_left _ h
    · refine List.mem_append_right _ ?_
      unfold new_tasks
      rw [List.mem_filter]
      exact ⟨hc, by simpa using h⟩

-- ============================================================
-- C6: a task failed three times is never dispatched or reset again
-- ============================================================

/-- A task row in state (failed, 3) is a fixed point of every queue
operation. -/
theorem apply_op_failed3_fixed (op : QueueOp) :
    apply_op op ⟨.failed, 3⟩ = ⟨.failed, 3⟩ := by
  cases op with
  | reset => simp [apply_op, reset_failed_step]
  | dispatch o => simp [apply_op, dispatch_step, pending_fetch_eligible]

/-- C6: a task that has failed three times (status `failed`,
`attempts = 3`) is never selected by the dispatch loop's pending fetch
and is never reset to pending by the population step's reset-failed
update — under any sequence of those operations it stays exactly
(failed, 3). -/
theorem failed_three_times_stays_failed (ops : List QueueOp) :
    apply_ops ops ⟨.failed, 3⟩ = ⟨.failed, 3⟩ ∧
      pending_fetch_eligible (apply_ops ops ⟨.failed, 3⟩) = false ∧
      (apply_ops ops ⟨.failed, 3⟩).status ≠ .pending := by
  have hfix : apply_ops ops ⟨.failed, 3⟩ = ⟨.failed, 3⟩ := by
    unfold apply_ops
    induction ops with
    | nil => rfl
    | cons op ops ih => rw [List.foldl_cons, apply_op_failed3_fixed]; exact ih
  refine ⟨hfix, ?_, ?_⟩
  · rw [hfix]; decide
  · rw [hfix]; decide

-- ============================================================
-- C10: status writes never raise; success tally ignores them
-- ============================================================

/-- Per-task step of the success tally. -/
theorem process_one_success (acc : BatchResults) (t : WorkerTask) :
    (process_one acc t).success = acc.success + (if uploadedOk t then 1 else 0) := by
  unfold process_one uploadedOk
  cases t.genResult with
  | error e => simp
  | ok o =>
    cases o with
    | none => simp
    | some bytes =>
      by_cases hb : bytes = ([] : List Nat)
      · simp [hb]
      · cases hput : t.putResult with
        | error e => simp [hb, hput]
        | ok u => simp [hb, hput]

/-- The success tally over a fold, generalized over the accumulator. -/
theorem process_batch_foldl_success (tasks : List WorkerTask) :
    ∀ acc : BatchResults,
      (tasks.foldl process_one acc).success = acc.success + tasks.countP uploadedOk := by
  induction tasks with
  | nil => intro acc; simp [List.countP_nil]
  | cons t ts ih =>
    intro acc
    rw [List.foldl_cons, ih, process_one_success, List.countP_cons]
    by_cases h : uploadedOk t = true
    · simp only [h, if_true]
      omega
    · simp only [h, if_false]
      omega

/-- C10: `update_task_status` is total — every task-store error during a
status write is caught — and consequently `process_batch` counts a task
as a success exactly when its bytes were rendered and uploaded,
regardless of whether recording the `completed` status succeeded (the
predicate `uploadedOk` does not read the terminal status-write
environment). -/
theorem status_write_errors_swallowed :
    (∀ (env : StatusWriteEnv) (st : WriteStatus) (k : Option String)
        (fs : Option Nat) (er : Option String),
      update_task_status env st k fs er = .ok ()) ∧
    (∀ tasks : List WorkerTask, (process_batch tasks).success = tasks.countP uploadedOk) := by
  constructor
  · intro env st k fs er
    unfold update_task_status
    cases h : update_task_status_inner env st k fs er with
    | ok u => cases u; rfl
    | error e => rfl
  · intro tasks
    unfold process_batch
    rw [process_batch_foldl_success]
    simp

-- ============================================================
-- String-matching lemmas
-- ============================================================

/-- `isPre` decides the leading-segment relation. -/
theorem isPre_iff : ∀ u v : List Char, isPre u v = true ↔ ∃ t, v = u ++ t := by
  intro u
  induction u with
  | nil =>
    intro v
    simp [isPre]
  | cons a u ih =>
    intro v
    cases v with
    | nil =>
      simp [isPre]
    | cons b v =>
      simp only [isPre, Bool.and_eq_true, beq_iff_eq]
      constructor
      · rintro ⟨rfl, h⟩
        obtain ⟨t, rfl⟩ := (ih v).mp h
        exact ⟨t, rfl⟩
      · rintro ⟨t, ht⟩
        rw [List.cons_append] at ht
        injection ht with h1 h2
        exact ⟨h1.symm, (ih v).mpr ⟨t, h2⟩⟩

/-- `subOcc` decides Python's substring relation. -/
theorem subOcc_iff : ∀ (q s : List Char), subOcc q s = true ↔ ∃ x y, s = x ++ q ++ y := by
  intro q s
  induction s with
  | nil =>
    constructor
    · intro h
      obtain ⟨t, ht⟩ := (isPre_iff q []).mp h
      exact ⟨[], t, ht⟩
    · rintro ⟨x, y, hxy⟩
      have h := hxy.symm
      rw [List.append_eq_nil] at h
      obtain ⟨h1, rfl⟩ := h
      rw [List.append_eq_nil] at h1
      obtain ⟨rfl, rfl⟩ := h1
      rfl
  | cons c t ih =>
    simp only [subOcc, Bool.or_eq_true, ih]
    constructor
    · rintro (h | ⟨x, y, rfl⟩)
      · obtain ⟨r, hr⟩ := (isPre_iff q (c :: t)).mp h
        exact ⟨[], r, by simpa using hr⟩
      · exact ⟨c :: x, y, rfl⟩
    · rintro ⟨x, y, hxy⟩
      cases x with
      | nil =>
        left
        exact (isPre_iff q (c :: t)).mpr ⟨y, by simpa using hxy⟩
      | cons d x =>
        right
        simp only [List.cons_append] at hxy
        injection hxy with h1 h2
        exact ⟨x, y, h2⟩

/-- `searchPatDotPlus` decides membership of the language of regex
`p.+`: the text contains `p` followed by at least one non-newline
character. -/
theorem searchPatDotPlus_iff (p : List Char) : ∀ s : List Char,
    searchPatDotPlus p s = true ↔
      ∃ x c y, s = x ++ p ++ c :: y ∧ c ≠ '\n' := by
  intro s
  induction s with
  | nil =>
    constructor
    · intro h
      exact absurd h (by simp [searchPatDotPlus])
    · rintro ⟨x, c, y, hxy, _⟩
      exfalso
      have := congrArg List.length hxy
      simp at this
      omega
  | cons a t ih =>
    constructor
    · intro h
      simp only [searchPatDotPlus, Bool.or_eq_true, Bool.and_eq_true] at h
      rcases h with ⟨hpre, hdot⟩ | h
      · obtain ⟨r, hr⟩ := (isPre_iff p (a :: t)).mp hpre
        rw [hr, List.drop_left] at hdot
        cases r with
        | nil => exact absurd hdot (by simp [dotPlusAt])
        | cons c y =>
          refine ⟨[], c, y, by simpa using hr, ?_⟩
          simpa [dotPlusAt] using hdot
      · obtain ⟨x, c, y, hxy, hc⟩ := ih.mp h
        exact ⟨a :: x, c, y, by simp [hxy], hc⟩
    · rintro ⟨x, c, y, hxy, hc⟩
      simp only [searchPatDotPlus, Bool.or_eq_true, Bool.and_eq_true]
      cases x with
      | nil =>
        left
        simp only [List.nil_append] at hxy
        refine ⟨(isPre_iff p (a :: t)).mpr ⟨c :: y, hxy⟩, ?_⟩
        rw [hxy, List.drop_left]
        simpa [dotPlusAt] using hc
      | cons d x =>
        right
        apply ih.mpr
        simp only [List.cons_append] at hxy
        injection hxy with h1 h2
        exact ⟨x, c, y, h2, hc⟩

-- ============================================================
-- C4: is_multicolor_led — override wins; literal matching is
-- case-sensitive, contrary to the claim
-- ============================================================

/-- C4 counterexample: for the model id "LX8440" — which contains no
override token and which the literal pattern "lx8440" matches as a
case-insensitive substring — the claim predicts `true`, but
`is_multicolor_led` performs the literal check case-sensitively against
the raw id and returns `false`. -/
theorem multicolor_literal_case_counterexample :
    is_multicolor_led "LX8440".toList = false ∧
      is_multicolor_led_claimed "LX8440".toList = true :=
  ⟨by decide, by decide⟩

/-- C4 amended: `is_multicolor_led` returns true exactly when the id
contains no override token (case-insensitive substring — so the override
list always wins, short-circuiting every pattern) and some pattern of
the multicolor table matches, where the trailing-star pattern matches
the (lowercased) stem followed by one or more characters anywhere in
the id, and a literal pattern matches as a case-SENSITIVE substring of
the raw id. -/
theorem is_multicolor_led_characterization :
    ∀ m : List Char, is_multicolor_led m = true ↔
      (¬ overrideHitProp m ∧ ∃ pat ∈ MULTICOLOR_LEDS, patMatchProp pat m) := by
  intro m
  simp only [is_multicolor_led]
  have hoviff :
      ((FORCE_SINGLE_COLOR_LED.any fun single => subOcc (lowerL single) (lowerL m)) = true) ↔
        overrideHitProp m := by
    rw [List.any_eq_true]
    unfold overrideHitProp
    constructor
    · rintro ⟨t, ht, hocc⟩
      exact ⟨t, ht, (subOcc_iff (lowerL t) (lowerL m)).mp hocc⟩
    · rintro ⟨t, ht, x, y, hxy⟩
      exact ⟨t, ht, (subOcc_iff (lowerL t) (lowerL m)).mpr ⟨x, y, hxy⟩⟩
  have hpatiff :
      ((MULTICOLOR_LEDS.any fun pat =>
        if hasStar pat then searchPatDotPlus (lowerL pat.dropLast) (lowerL m)
        else subOcc pat m) = true) ↔
        ∃ pat ∈ MULTICOLOR_LEDS, patMatchProp pat m := by
    rw [List.any_eq_true]
    constructor
    · rintro ⟨pat, hpat, hmatch⟩
      refine ⟨pat, hpat, ?_⟩
      unfold patMatchProp
      by_cases hstar : hasStar pat = true
      · rw [if_pos hstar] at hmatch ⊢
        exact (searchPatDotPlus_iff (lowerL pat.dropLast) (lowerL m)).mp hmatch
      · rw [if_neg hstar] at hmatch ⊢
        exact (subOcc_iff pat m).mp hmatch
    · rintro ⟨pat, hpat, hmatch⟩
      refine ⟨pat, hpat, ?_⟩
      unfold patMatchProp at hmatch
      by_cases hstar : hasStar pat = true
      · rw [if_pos hstar] at hmatch ⊢
        exact (searchPatDotPlus_iff (lowerL pat.dropLast) (lowerL m)).mpr hmatch
      · rw [if_neg hstar] at hmatch ⊢
        exact (subOcc_iff pat m).mpr hmatch
  constructor
  · intro h
    by_cases hov :
        (FORCE_SINGLE_COLOR_LED.any fun single => subOcc (lowerL single) (lowerL m)) = true
    · rw [if_pos hov] at h
      exact absurd h (by simp)
    · rw [if_neg hov] at h
      exact ⟨fun hp => hov (hoviff.mpr hp), hpatiff.mp h⟩
  · rintro ⟨hno, hpat⟩
    have hov :
        ¬ (FORCE_SINGLE_COLOR_LED.any fun single => subOcc (lowerL single) (lowerL m)) = true :=
      fun hcontra => hno (hoviff.mp hcontra)
    rw [if_neg hov]
    exact hpatiff.mpr hpat

-- ============================================================
-- replaceAll: equations and occurrence lemmas
-- ============================================================

/-- The skip-counter worker agrees with scanning the dropped text. -/
theorem repAux_skip (p0 : Char) (pt r : List Char) :
    ∀ (s : List Char) (k : Nat), repAux p0 pt r s k = replaceAll p0 pt r (s.drop k) := by
  intro s
  induction s with
  | nil =>
    intro k
    simp [repAux, replaceAll, List.drop_nil]
  | cons c s ih =>
    intro k
    cases k with
    | zero => rfl
    | succ k =>
      show repAux p0 pt r s k = _
      rw [ih k]
      rfl

theorem replaceAll_nil (p0 : Char) (pt r : List Char) :
    replaceAll p0 pt r [] = [] := rfl

theorem replaceAll_cons_pos (p0 : Char) (pt r : List Char) (c : Char) (s : List Char)
    (h : isPre (p0 :: pt) (c :: s) = true) :
    replaceAll p0 pt r (c :: s) = r ++ replaceAll p0 pt r (s.drop pt.length) := by
  show repAux p0 pt r (c :: s) 0 = _
  simp only [repAux, h, if_true]
  rw [repAux_skip]

theorem replaceAll_cons_neg (p0 : Char) (pt r : List Char) (c : Char) (s : List Char)
    (h : isPre (p0 :: pt) (c :: s) = false) :
    replaceAll p0 pt r (c :: s) = c :: replaceAll p0 pt r s := by
  show repAux p0 pt r (c :: s) 0 = _
  simp only [repAux, h]
  rfl

/-- `subOcc` via start positions. -/
theorem subOcc_iff_drop : ∀ (q s : List Char),
    subOcc q s = true ↔ ∃ i, isPre q (s.drop i) = true := by
  intro q s
  induction s with
  | nil =>
    simp only [subOcc]
    constructor
    · intro h
      exact ⟨0, by simpa using h⟩
    · rintro ⟨i, hi⟩
      simpa using hi
  | cons c t ih =>
    simp only [subOcc, Bool.or_eq_true, ih]
    constructor
    · rintro (h | ⟨i, hi⟩)
      · exact ⟨0, by simpa using h⟩
      · exact ⟨i + 1, by simpa using hi⟩
    · rintro ⟨i, hi⟩
      cases i with
      | zero => left; simpa using hi
      | succ j => right; exact ⟨j, by simpa using hi⟩

/-- No occurrence, via start positions. -/
theorem subOcc_eq_false_iff (q s : List Char) :
    subOcc q s = false ↔ ∀ i, isPre q (s.drop i) = false := by
  constructor
  · intro h i
    by_contra hcon
    simp only [Bool.not_eq_false] at hcon
    have := (subOcc_iff_drop q s).mpr ⟨i, hcon⟩
    rw [h] at this
    simp at this
  · intro h
    by_contra hcon
    simp only [Bool.not_eq_false] at hcon
    obtain ⟨i, hi⟩ := (subOcc_iff_drop q s).mp hcon
    rw [h i] at hi
    simp at hi

/-- Absence of an occurrence passes to any suffix. -/
theorem subOcc_drop_false (q s : List Char) (m : Nat) (h : subOcc q s = false) :
    subOcc q (s.drop m) = false := by
  rw [subOcc_eq_false_iff] at h ⊢
  intro i
  rw [List.drop_drop]
  exact h _

/-- A prefix of an append is a prefix of the left part, or extends it. -/
theorem isPre_append_cases : ∀ (r A u : List Char), isPre u (r ++ A) = true →
    isPre u r = true ∨ (isPre r u = true ∧ isPre (u.drop r.length) A = true) := by
  intro r
  induction r with
  | nil =>
    intro A u h
    right
    exact ⟨rfl, by simpa using h⟩
  | cons b r ih =>
    intro A u h
    cases u with
    | nil =>
      left
      rfl
    | cons a u =>
      simp only [List.cons_append, isPre, Bool.and_eq_true, beq_iff_eq] at h ⊢
      obtain ⟨hab, h2⟩ := h
      rcases ih A u h2 with h3 | ⟨h4, h5⟩
      · left
        exact ⟨hab, h3⟩
      · right
        refine ⟨⟨hab.symm, h4⟩, ?_⟩
        simpa using h5

/-- No occurrence of `q` in `r ++ A` when `q` does not occur in `r`, no
suffix of `r` starts an occurrence of `q`, and `q` does not occur in `A`. -/
theorem subOcc_append_false (q r A : List Char)
    (hr : subOcc q r = false)
    (hspan : ∀ i, i < r.length → isPre (r.drop i) q = false)
    (hA : subOcc q A = false) :
    subOcc q (r ++ A) = false := by
  rw [subOcc_eq_false_iff] at hA ⊢
  intro i
  by_contra hcon
  simp only [Bool.not_eq_false] at hcon
  rw [List.drop_append_eq_append_drop] at hcon
  by_cases hi : i < r.length
  · have hz : i - r.length = 0 := by omega
    rw [hz, List.drop_zero] at hcon
    rcases isPre_append_cases (r.drop i) A q hcon with h1 | ⟨h2, _⟩
    · have hocc : subOcc q r = true := (subOcc_iff_drop q r).mpr ⟨i, h1⟩
      rw [hr] at hocc
      simp at hocc
    · rw [hspan i hi] at h2
      simp at h2
  · have hrd : r.drop i = [] := List.drop_eq_nil_of_le (by omega)
    rw [hrd, List.nil_append] at hcon
    rw [hA (i - r.length)] at hcon
    simp at hcon

/-- If a nonempty proper suffix of `q` is a prefix of `replaceAll`'s
output, it was already a prefix of the input — provided no nonempty
proper suffix of `q` is prefix-comparable with the replacement `r`. -/
theorem pre_of_pre_replaceAll (p0 : Char) (pt r q : List Char)
    (hS : ∀ k, k < q.length → 1 ≤ k →
      isPre (q.drop k) r = false ∧ isPre r (q.drop k) = false) :
    ∀ n s k, s.length ≤ n → k < q.length → 1 ≤ k →
      isPre (q.drop k) (replaceAll p0 pt r s) = true → isPre (q.drop k) s = true := by
  intro n
  induction n with
  | zero =>
    intro s k hs hk _ hpre
    have hnil : s = [] := List.length_eq_zero.mp (Nat.le_zero.mp hs)
    subst hnil
    rw [replaceAll_nil] at hpre
    obtain ⟨t, ht⟩ := (isPre_iff _ _).mp hpre
    have hlen := congrArg List.length ht
    simp [List.length_drop] at hlen
    omega
  | succ n ih =>
    intro s k hs hk hk1 hpre
    cases s with
    | nil =>
      rw [replaceAll_nil] at hpre
      obtain ⟨t, ht⟩ := (isPre_iff _ _).mp hpre
      have hlen := congrArg List.length ht
      simp [List.length_drop] at hlen
      omega
    | cons c s =>
      by_cases hm : isPre (p0 :: pt) (c :: s) = true
      · rw [replaceAll_cons_pos p0 pt r c s hm] at hpre
        exfalso
        rcases isPre_append_cases r _ _ hpre with h1 | ⟨h2, _⟩
        · rw [(hS k hk hk1).1] at h1
          simp at h1
        · rw [(hS k hk hk1).2] at h2
          simp at h2
      · have hm' : isPre (p0 :: pt) (c :: s) = false := by
          simpa using hm
        rw [replaceAll_cons_neg p0 pt r c s hm'] at hpre
        cases hqd : q.drop k with
        | nil =>
          have hlen := congrArg List.length hqd
          simp [List.length_drop] at hlen
          omega
        | cons d u =>
          rw [hqd] at hpre
          simp only [isPre, Bool.and_eq_true, beq_iff_eq] at hpre
          obtain ⟨hdc, hu⟩ := hpre
          have hu' : q.drop (k + 1) = u := by
            have ht := congrArg List.tail hqd
            rw [List.tail_drop] at ht
            simpa using ht
          by_cases hunil : u = []
          · subst hunil
            simp [isPre, hdc]
          · have hk2 : k + 1 < q.length := by
              by_contra hcon
              push_neg at hcon
              have hdrop : q.drop (k + 1) = [] := List.drop_eq_nil_of_le hcon
              rw [hu'] at hdrop
              exact hunil hdrop
            have hslen : s.length ≤ n := by
              simp at hs
              omega
            have hres := ih s (k + 1) hslen hk2 (by omega)
              (by rw [hu']; exact hu)
            rw [hu'] at hres
            simp only [isPre, Bool.and_eq_true, beq_iff_eq]
            exact ⟨hdc, hres⟩

/-- After replacing every occurrence of the (nonempty) pattern, the
pattern no longer occurs — provided the replacement contains no
occurrence, no suffix of the replacement starts one, and no nonempty
proper suffix of the pattern is prefix-comparable with the replacement. -/
theorem subOcc_replaceAll_self (p0 : Char) (pt r : List Char)
    (hr : subOcc (p0 :: pt) r = false)
    (hspan : ∀ i, i < r.length → isPre (r.drop i) (p0 :: pt) = false)
    (hS : ∀ k, k < (p0 :: pt).length → 1 ≤ k →
      isPre ((p0 :: pt).drop k) r = false ∧ isPre r ((p0 :: pt).drop k) = false) :
    ∀ n s, s.length ≤ n → subOcc (p0 :: pt) (replaceAll p0 pt r s) = false := by
  intro n
  induction n with
  | zero =>
    intro s hs
    have hnil : s = [] := List.length_eq_zero.mp (Nat.le_zero.mp hs)
    subst hnil
    rfl
  | succ n ih =>
    intro s hs
    cases s with
    | nil => rfl
    | cons c s =>
      by_cases hm : isPre (p0 :: pt) (c :: s) = true
      · rw [replaceAll_cons_pos p0 pt r c s hm]
        refine subOcc_append_false _ _ _ hr hspan (ih _ ?_)
        simp at hs ⊢
        omega
      · have hm' : isPre (p0 :: pt) (c :: s) = false := by
          simpa using hm
        rw [replaceAll_cons_neg p0 pt r c s hm']
        have hA := ih s (by simp at hs; omega)
        rw [subOcc_eq_false_iff] at hA ⊢
        intro i
        cases i with
        | zero =>
          simp only [List.drop_zero]
          by_contra hcon
          simp only [Bool.not_eq_false] at hcon
          simp only [isPre, Bool.and_eq_true, beq_iff_eq] at hcon
          obtain ⟨hpc, hpt⟩ := hcon
          cases hptc : pt with
          | nil =>
            apply hm
            subst hptc
            simp [isPre, hpc]
          | cons e et =>
            have hlen1 : 1 < (p0 :: pt).length := by
              simp [hptc]
            have hpre_s : isPre ((p0 :: pt).drop 1) s = true := by
              refine pre_of_pre_replaceAll p0 pt r (p0 :: pt) hS n s 1
                (by simp at hs; omega) hlen1 (by omega) ?_
              show isPre pt _ = true
              exact hpt
            apply hm
            simp only [isPre, Bool.and_eq_true, beq_iff_eq]
            exact ⟨hpc, hpre_s⟩
        | succ j =>
          simp only [List.drop_succ_cons]
          exact hA j

/-- Replacing occurrences of one pattern does not create an occurrence
of another string `q` that was absent — under the analogous
non-interference conditions between `q` and the replacement `r`. -/
theorem subOcc_replaceAll_pres (p0 : Char) (pt r q : List Char)
    (hr : subOcc q r = false)
    (hspan : ∀ i, i < r.length → isPre (r.drop i) q = false)
    (hS : ∀ k, k < q.length → 1 ≤ k →
      isPre (q.drop k) r = false ∧ isPre r (q.drop k) = false) :
    ∀ n s, s.length ≤ n → subOcc q s = false →
      subOcc q (replaceAll p0 pt r s) = false := by
  intro n
  induction n with
  | zero =>
    intro s hs hocc
    have hnil : s = [] := List.length_eq_zero.mp (Nat.le_zero.mp hs)
    subst hnil
    rw [replaceAll_nil]
    exact hocc
  | succ n ih =>
    intro s hs hocc
    cases s with
    | nil =>
      rw [replaceAll_nil]
      exact hocc
    | cons c s =>
      have hocc' := hocc
      simp only [subOcc, Bool.or_eq_false_iff] at hocc'
      obtain ⟨hq1, hq2⟩ := hocc'
      by_cases hm : isPre (p0 :: pt) (c :: s) = true
      · rw [replaceAll_cons_pos p0 pt r c s hm]
        refine subOcc_append_false _ _ _ hr hspan (ih _ ?_ ?_)
        · simp at hs ⊢
          omega
        · exact subOcc_drop_false q s pt.length hq2
      · have hm' : isPre (p0 :: pt) (c :: s) = false := by
          simpa using hm
        rw [replaceAll_cons_neg p0 pt r c s hm']
        have hA := ih s (by simp at hs; omega) hq2
        rw [subOcc_eq_false_iff] at hA ⊢
        intro i
        cases i with
        | zero =>
          simp only [List.drop_zero]
          by_contra hcon
          simp only [Bool.not_eq_false] at hcon
          cases hqc : q with
          | nil =>
            subst hqc
            simp [isPre] at hq1
          | cons d u =>
            subst hqc
            simp only [isPre, Bool.and_eq_true, beq_iff_eq] at hcon
            obtain ⟨hdc, hu⟩ := hcon
            by_cases hunil : u = []
            · subst hunil
              simp [isPre, hdc] at hq1
            · have hlen1 : 1 < (d :: u).length := by
                cases u with
                | nil => exact absurd rfl hunil
                | cons e et => simp
              have hpre_s : isPre ((d :: u).drop 1) s = true := by
                refine pre_of_pre_replaceAll p0 pt r (d :: u) hS n s 1
                  (by simp at hs; omega) hlen1 (by omega) ?_
                show isPre u _ = true
                exact hu
              simp only [List.drop_succ_cons, List.drop_zero] at hpre_s
              simp [isPre, hdc, hpre_s] at hq1
        | succ j =>
          simp only [List.drop_succ_cons]
          exact hA j

/-- When the pattern does not occur, `replaceAll` is the identity. -/
theorem replaceAll_id (p0 : Char) (pt r : List Char) :
    ∀ n s, s.length ≤ n → subOcc (p0 :: pt) s = false →
      replaceAll p0 pt r s = s := by
  intro n
  induction n with
  | zero =>
    intro s hs _
    have hnil : s = [] := List.length_eq_zero.mp (Nat.le_zero.mp hs)
    subst hnil
    rfl
  | succ n ih =>
    intro s hs hocc
    cases s with
    | nil => rfl
    | cons c s =>
      simp only [subOcc, Bool.or_eq_false_iff] at hocc
      obtain ⟨hq1, hq2⟩ := hocc
      rw [replaceAll_cons_neg p0 pt r c s hq1]
      rw [ih s (by simp at hs; omega) hq2]

-- ============================================================
-- C8: normalize_model_name is idempotent
-- ============================================================

/-- After rule 1 (`-fourface` → `-4`) the pattern `-fourface` is gone. -/
theorem rule1_clears : ∀ s : List Char,
    subOcc ('-' :: "fourface".toList)
      (replaceAll '-' "fourface".toList "-4".toList s) = false := by
  intro s
  exact subOcc_replaceAll_self '-' "fourface".toList "-4".toList
    (by decide) (by decide) (by decide) s.length s le_rfl

/-- After rule 2 (`lx2665b` → `lx2665v`) the pattern `lx2665b` is gone. -/
theorem rule2_clears : ∀ s : List Char,
    subOcc ('l' :: "x2665b".toList)
      (replaceAll 'l' "x2665b".toList "lx2665v".toList s) = false := by
  intro s
  exact subOcc_replaceAll_self 'l' "x2665b".toList "lx2665v".toList
    (by decide) (by decide) (by decide) s.length s le_rfl

/-- After rule 3 (`lx2655b` → `lx2655v`) the pattern `lx2655b` is gone. -/
theorem rule3_clears : ∀ s : List Char,
    subOcc ('l' :: "x2655b".toList)
      (replaceAll 'l' "x2655b".toList "lx2655v".toList s) = false := by
  intro s
  exact subOcc_replaceAll_self 'l' "x2655b".toList "lx2655v".toList
    (by decide) (by decide) (by decide) s.length s le_rfl

/-- After rule 4 (`lx2545b` → `lx2545v`) the pattern `lx2545b` is gone. -/
theorem rule4_clears : ∀ s : List Char,
    subOcc ('l' :: "x2545b".toList)
      (replaceAll 'l' "x2545b".toList "lx2545v".toList s) = false := by
  intro s
  exact subOcc_replaceAll_self 'l' "x2545b".toList "lx2545v".toList
    (by decide) (by decide) (by decide) s.length s le_rfl

/-- The fully normalized name contains no occurrence of any of the four
patterns. -/
theorem normalizeL_clears (s : List Char) :
    subOcc ('-' :: "fourface".toList) (normalizeL s) = false ∧
    subOcc ('l' :: "x2665b".toList) (normalizeL s) = false ∧
    subOcc ('l' :: "x2655b".toList) (normalizeL s) = false ∧
    subOcc ('l' :: "x2545b".toList) (normalizeL s) = false := by
  unfold normalizeL
  refine ⟨?_, ?_, ?_, ?_⟩
  · apply subOcc_replaceAll_pres 'l' "x2545b".toList "lx2545v".toList _
      (by decide) (by decide) (by decide) _ _ le_rfl
    apply subOcc_replaceAll_pres 'l' "x2655b".toList "lx2655v".toList _
      (by decide) (by decide) (by decide) _ _ le_rfl
    apply subOcc_replaceAll_pres 'l' "x2665b".toList "lx2665v".toList _
      (by decide) (by decide) (by decide) _ _ le_rfl
    exact rule1_clears s
  · apply subOcc_replaceAll_pres 'l' "x2545b".toList "lx2545v".toList _
      (by decide) (by decide) (by decide) _ _ le_rfl
    apply subOcc_replaceAll_pres 'l' "x2655b".toList "lx2655v".toList _
      (by decide) (by decide) (by decide) _ _ le_rfl
    exact rule2_clears _
  · apply subOcc_replaceAll_pres 'l' "x2545b".toList "lx2545v".toList _
      (by decide) (by decide) (by decide) _ _ le_rfl
    exact rule3_clears _
  · exact rule4_clears _

/-- `normalizeL` is idempotent. -/
theorem normalizeL_idem (s : List Char) : normalizeL (normalizeL s) = normalizeL s := by
  obtain ⟨h1, h2, h3, h4⟩ := normalizeL_clears s
  conv_lhs => rw [normalizeL]
  rw [replaceAll_id '-' "fourface".toList "-4".toList (normalizeL s).length _ le_rfl h1]
  rw [replaceAll_id 'l' "x2665b".toList "lx2665v".toList (normalizeL s).length _ le_rfl h2]
  rw [replaceAll_id 'l' "x2655b".toList "lx2655v".toList (normalizeL s).length _ le_rfl h3]
  rw [replaceAll_id 'l' "x2545b".toList "lx2545v".toList (normalizeL s).length _ le_rfl h4]

/-- C8: `normalize_model_name` is idempotent — applying the four ordered
literal substring replacements twice yields the same result as applying
them once (no replacement's output can create a new match for any rule). -/
theorem normalize_model_name_idem (s : String) :
    normalize_model_name (normalize_model_name s) = normalize_model_name s := by
  show String.mk (normalizeL (normalizeL s.data)) = String.mk (normalizeL s.data)
  rw [normalizeL_idem]

-- ============================================================
-- C7: the on-demand render chain equals the batch renderer
-- ============================================================

/-- A candidate list with its first path repeated at the end resolves
identically to the three-path list. -/
theorem firstFound_dup {Img : Type} (f : List Char → Option Img) (x y z : List Char) :
    firstFound f [x, y, z, x] = firstFound f [x, y, z] := by
  cases hx : f x with
  | some i => simp [firstFound, hx]
  | none =>
    cases hy : f y with
    | some i => simp [firstFound, hx, hy]
    | none =>
      cases hz : f z with
      | some i => simp [firstFound, hx, hy, hz]
      | none => simp [firstFound, hx, hy, hz]

/-- On an already-normalized model id — which is how both pipelines call
it — the batch `get_mask` (renormalize + 4 paths, the last being the raw
argument) resolves exactly like the on-demand `get_mask` (3 paths),
because normalization is idempotent and the raw-argument fallback
duplicates the first path. -/
theorem get_mask_renorm {Img : Type} (ops : RenderOps Img) (m layer : List Char) :
    get_mask ops (normalizeL m) layer = get_mask_ondemand ops (normalizeL m) layer := by
  simp only [get_mask, get_mask_ondemand]
  rw [normalizeL_idem]
  exact firstFound_dup ops.openAt _ _ _

/-- Forgetting the layer names of a named optional layer gives the plain
optional layer. -/
theorem optNamed_snd {Img : Type} (name : List Char) (o : Option Img) (f : Img → Img) :
    (optNamed name o f).map Prod.snd = optPlain o f := by
  cases o with
  | none => rfl
  | some i => rfl

/-- Compositing the named stack equals compositing the unnamed images. -/
theorem composite_encode_map {Img : Type} (ops : RenderOps Img)
    (L : List (List Char × Img)) (width : Nat) :
    composite_encode_batch ops L width =
      composite_encode_single ops (L.map Prod.snd) width := by
  cases L with
  | nil => rfl
  | cons l0 rest =>
    simp only [composite_encode_batch, composite_encode_single, List.map_cons]
    have hfold : (l0.2 :: rest.map Prod.snd) = (l0 :: rest).map Prod.snd := rfl
    rw [hfold, List.foldl_map]

/-- C7: for every combination (model, primary, accent, leds, width) and
identical mask-cache contents (the shared `openAt` oracle), the
on-demand endpoint's resolve→colorize→composite chain produces the same
rendered bytes as the batch worker's `generate_image` — the two paths
are equivalent renderers, mask path-resolution fallbacks included. -/
theorem single_image_matches_batch {Img : Type} (ops : RenderOps Img)
    (model primary accent leds : List Char) (width : Nat) :
    generate_image ops model primary accent leds width =
      render_single ops model primary accent leds width := by
  simp only [generate_image, render_single, get_mask_renorm]
  rw [composite_encode_map]
  congr 1
  simp [List.map_append, optNamed_snd]

-- ============================================================
-- C9: the HTTP entry points and raw exceptions
-- ============================================================

/-- C9 counterexample: a request for model "lx1234" against a cache
that resolves every mask, with a healthy mask sync but a failing
`put_object`, makes `generate_single_image` propagate the raw store
exception instead of returning a structured payload. -/
theorem single_endpoint_raw_exception :
    generate_single_image_ep failingUploadEnv sampleRequest =
      .error "S3 put_object failed" := by
  rfl

/-- C9 amended: the endpoints return structured payloads on the
validation, cache-hit, no-layers and fully-successful paths — in
particular whenever the mask sync and the upload do not raise — and the
batch-start endpoint always acknowledges with a structured payload; but
a raising mask sync or upload escapes `generate_single_image` as a raw
exception (see the counterexample). -/
theorem endpoints_structured_when_store_healthy {Img : Type}
    (env : SingleEndpointEnv Img) (item : SingleRequest)
    (hsync : env.syncMasks = Except.ok ())
    (hput : env.putObject = Except.ok ()) :
    returnsPayload (generate_single_image_ep env item) = true ∧
      ∀ b : BatchStartRequest, (start_batch_processing_ep b).success = true := by
  constructor
  · unfold generate_single_image_ep
    cases hm : item.model with
    | none => rfl
    | some model =>
      dsimp only
      cases hhead : env.headExists with
      | true => rfl
      | false =>
        rw [hsync]
        dsimp only
        cases hrender : render_single env.ops model.data item.primary.data
            item.accent.data item.leds.data item.width with
        | none => rfl
        | some bytes =>
          dsimp only
          rw [hput]
          rfl
  · intro b
    rfl

/-- Witness for the amended C9 at a concrete healthy environment. -/
theorem endpoints_structured_witness :
    returnsPayload (generate_single_image_ep healthyEnv sampleRequest) = true :=
  (endpoints_structured_when_store_healthy healthyEnv sampleRequest rfl rfl).1

